import Mathlib

/-!
Verification of the subtitle-embedder bot core (`subtitle_embedder.py`, `bot.py`).

The Python sources are shallowly embedded: paths are modelled as plain
(already-resolved) strings, the ffmpeg command is the ordered list of argument
strings the source builds, and the per-user Telegram session handlers are
modelled as pure transition functions on an explicit session value.  The
subprocess boundary is modelled by an outcome value (exit code / timeout /
raised exception) plus a flag telling whether the declared output file exists
after the run, exactly the two observations the source's result-verification
phase makes.
-/

namespace SubtitleBot

/-! ### Path model

`pathlib.PurePath` operations used by the sources, for POSIX-style path
strings: `.name`, `.suffix`, `.stem`, and `str.rsplit('.', 1)[0]`.
-/

/-- Split a character list at every occurrence of `c` (Python `str.split`). -/
def splitOnChar (c : Char) : List Char → List (List Char)
  | [] => [[]]
  | x :: xs =>
    match splitOnChar c xs with
    | [] => [[]]
    | h :: t => if x = c then [] :: h :: t else (x :: h) :: t

/-- `Path(p).name`: the final path component. -/
def pathName (p : String) : String :=
  String.mk ((splitOnChar '/' p.data).getLastD [])

/-- Python `str.lower()` (ASCII case folding suffices for the extension
comparisons the sources perform). -/
def lowerStr (s : String) : String :=
  String.mk (s.data.map Char.toLower)

/-- Index of the last occurrence of `c` (Python `str.rfind`, `none` when absent). -/
def lastIdxOf (c : Char) : List Char → Option Nat
  | [] => none
  | x :: xs =>
    match lastIdxOf c xs with
    | some i => some (i + 1)
    | none => if x = c then some 0 else none

/-- `Path(p).suffix`: the extension of the final component, dot included;
empty when the last dot is leading or trailing (pathlib's `0 < i < len-1` rule). -/
def pathSuffix (p : String) : String :=
  let name := pathName p
  let cs := name.data
  match lastIdxOf '.' cs with
  | some i => if 0 < i ∧ i < cs.length - 1 then String.mk (cs.drop i) else ""
  | none => ""

/-- `Path(p).stem`: the final component without its suffix. -/
def pathStem (p : String) : String :=
  let name := pathName p
  let cs := name.data
  match lastIdxOf '.' cs with
  | some i => if 0 < i ∧ i < cs.length - 1 then String.mk (cs.take i) else name
  | none => name

/-- `name.rsplit('.', 1)[0]`: everything before the last dot (the whole string
when there is no dot).  Used by `bot.py` to derive default subtitle titles. -/
def rsplitStem (name : String) : String :=
  match lastIdxOf '.' name.data with
  | some i => String.mk (name.data.take i)
  | none => name

/-! ### `subtitle_embedder.py`: format detection and command construction -/

/-- `get_subtitle_format` (subtitle_embedder.py:59-77): extension-table lookup. -/
def get_subtitle_format (subtitle_file : String) : String :=
  let ext := lowerStr (pathSuffix subtitle_file)
  if ext = ".srt" then "srt"
  else if ext = ".ass" then "ass"
  else if ext = ".ssa" then "ass"
  else if ext = ".vtt" then "webvtt"
  else if ext = ".sub" then "subrip"
  else "srt"

/-- The finalized input of `embed_multiple_subtitles` as invoked by the bot
(video path, ordered subtitle paths, explicit output path, optional parallel
language and title lists).  Paths are modelled as already resolved. -/
structure RemuxJob where
  video_file : String
  subtitle_files : List String
  output_file : String
  languages : Option (List String)
  titles : Option (List String)
deriving DecidableEq

/-- Global ffmpeg options (subtitle_embedder.py:273-278). -/
def globalArgs : List String :=
  ["-hide_banner", "-loglevel", "warning", "-nostdin", "-y"]

/-- Per-subtitle input arguments with UTF-8 enforcement (subtitle_embedder.py:284-289). -/
def subtitleInputArgs (subtitle_files : List String) : List String :=
  subtitle_files.flatMap (fun s => ["-sub_charenc", "UTF-8", "-i", s])

/-- Stream-mapping section (subtitle_embedder.py:291-306): all video and audio
streams of input 0, no `0:s` mapping, then each subtitle input `i+1`. -/
def mapSection (n : Nat) : List String :=
  ["-map", "0:v?", "-map", "0:a?"]
    ++ (List.range n).flatMap (fun i => ["-map", Nat.repr (i + 1)])

/-- Subtitle-codec section (subtitle_embedder.py:316-343); `video_ext` is the
lower-cased suffix of the video path. -/
def codecSection (video_ext : String) (subtitle_files : List String) : List String :=
  let is_mp4 := [".mp4", ".m4v"].contains video_ext
  let is_mkv := [".mkv", ".webm"].contains video_ext
  if is_mp4 then
    ["-c:s", "mov_text"]
  else if is_mkv then
    subtitle_files.enum.flatMap (fun p =>
      if get_subtitle_format p.2 = "ass" then
        ["-c:s:" ++ Nat.repr p.1, "ass"]
      else
        ["-c:s:" ++ Nat.repr p.1, "srt"])
  else
    ["-c:s", "srt"]

/-- `languages[i] if languages and i < len(languages) else 'und'`
(subtitle_embedder.py:350). -/
def langFor (languages : Option (List String)) (i : Nat) : String :=
  match languages with
  | none => "und"
  | some ls => if ls ≠ [] ∧ i < ls.length then ls.getD i "und" else "und"

/-- `titles[i] if titles and i < len(titles) else Path(sub_file).stem`
(subtitle_embedder.py:354-358). -/
def titleFor (titles : Option (List String)) (sub_file : String) (i : Nat) : String :=
  match titles with
  | none => pathStem sub_file
  | some ts => if ts ≠ [] ∧ i < ts.length then ts.getD i "" else pathStem sub_file

/-- Per-track metadata and disposition section (subtitle_embedder.py:345-367). -/
def metadataSection (subtitle_files : List String)
    (languages titles : Option (List String)) : List String :=
  subtitle_files.enum.flatMap (fun p =>
    ["-metadata:s:s:" ++ Nat.repr p.1, "language=" ++ langFor languages p.1,
     "-metadata:s:s:" ++ Nat.repr p.1, "title=" ++ titleFor titles p.2 p.1]
      ++ (if p.1 = 0 then ["-disposition:s:" ++ Nat.repr p.1, "default"]
          else ["-disposition:s:" ++ Nat.repr p.1, "0"]))

/-- Unconditional compatibility options (subtitle_embedder.py:371-374). -/
def tailArgs : List String :=
  ["-movflags", "+faststart", "-max_muxing_queue_size", "9999"]

/-- The full ffmpeg argument list built by `embed_multiple_subtitles`
(subtitle_embedder.py:267-377), in source order. -/
def embedCmd (job : RemuxJob) : List String :=
  let video_ext := lowerStr (pathSuffix job.video_file)
  (["ffmpeg"] ++ globalArgs ++ ["-i", job.video_file]
      ++ subtitleInputArgs job.subtitle_files)
    ++ mapSection job.subtitle_files.length
    ++ (["-c:v", "copy", "-c:a", "copy"]
      ++ codecSection video_ext job.subtitle_files
      ++ metadataSection job.subtitle_files job.languages job.titles
      ++ tailArgs
      ++ [job.output_file])

/-! ### `subtitle_embedder.py`: execution-result classification -/

/-- Outcome of the `subprocess.run` call on the built command: normal exit with
a return code, `TimeoutExpired`, or any other raised exception. -/
inductive ProcOutcome where
  | exited (returncode : Int)
  | timeout
  | raised
deriving DecidableEq

/-- Result classification of `embed_multiple_subtitles`
(subtitle_embedder.py:397-463): `outputExists` is `os.path.exists(output_path)`
observed after the run.  Stderr capture and stream-count re-probing only feed
log statements and never change the returned value. -/
def runPhaseResult (outcome : ProcOutcome) (outputExists : Bool) : Bool :=
  match outcome with
  | .exited rc => if rc = 0 then (if outputExists then true else false) else false
  | .timeout => false
  | .raised => false

/-! ### `bot.py`: per-user session data and event handlers

Transport-only values (Pyrogram message objects, message ids, thumbnail
bookkeeping, progress trackers) are not modelled; the fields below are the ones
the handlers' control flow and the remux invocation read or write.
-/

/-- `config.py`: `DOWNLOAD_DIR = BASE_DIR / 'downloads'` (base prefix elided). -/
def DOWNLOAD_DIR : String := "downloads"

/-- `config.py`: `OUTPUT_DIR = BASE_DIR / 'output'` (base prefix elided). -/
def OUTPUT_DIR : String := "output"

/-- `bot.py:460`: extensions routed to the video-document flow. -/
def video_extensions : List String :=
  [".mp4", ".mkv", ".avi", ".mov", ".flv", ".wmv", ".webm", ".m4v"]

/-- `bot.py:466`: accepted subtitle extensions. -/
def subtitle_extensions : List String :=
  [".srt", ".ass", ".ssa", ".vtt", ".sub"]

/-- `UserSession` (bot.py:42-58).  `subtitle_files` holds the original upload
file names (the `document.file_name` of each kept `Document`). -/
structure UserSession where
  video_path : Option String
  video_is_document : Bool
  subtitle_files : List String
  subtitle_paths : List String
  languages : List String
  titles : List String
  state : String
  file_name : Option String
  file_size : Nat
deriving DecidableEq

/-- `UserSession.__init__`: the fresh session every reset installs. -/
def UserSession.init : UserSession :=
  { video_path := none
  , video_is_document := false
  , subtitle_files := []
  , subtitle_paths := []
  , languages := []
  , titles := []
  , state := "idle"
  , file_name := none
  , file_size := 0 }

/-- The language-name table of `language_callback` (bot.py:127-141). -/
def lang_names : List (String × String) :=
  [("eng", "🇬🇧 English"), ("spa", "🇪🇸 Spanish"), ("fre", "🇫🇷 French"),
   ("ger", "🇩🇪 German"), ("ita", "🇮🇹 Italian"), ("por", "🇵🇹 Portuguese"),
   ("rus", "🇷🇺 Russian"), ("jpn", "🇯🇵 Japanese"), ("kor", "🇰🇷 Korean"),
   ("chi", "🇨🇳 Chinese"), ("hin", "🇮🇳 Hindi"), ("ara", "🇸🇦 Arabic"),
   ("und", "❓ Unknown")]

/-- `lang_names.get(language_code, language_code)` (bot.py:143). -/
def langDisplayName (code : String) : String :=
  ((lang_names.lookup code).getD code)

/-- Outbound reply of the language-selection callback handler. -/
inductive CallbackAction where
  | alert (text : String)
  | confirm (text : String)
deriving DecidableEq

/-- `language_callback` (bot.py:106-156) as a transition on the user's stored
session (`none` = the user has no entry in `user_sessions`), paired with the
answer sent back.  `subtitle_index`/`language_code` are the parsed pieces of
the `lang_{index}_{code}` callback payload the bot itself generated. -/
def language_callback (sess : Option UserSession) (subtitle_index : Nat)
    (language_code : String) : Option UserSession × CallbackAction :=
  match sess with
  | none => (none, .alert "❌ Session expired. Please start again.")
  | some session =>
    if subtitle_index < session.languages.length then
      (some { session with languages := session.languages.set subtitle_index language_code },
       .confirm ("Language set to " ++ langDisplayName language_code))
    else
      (some session, .alert "❌ Invalid subtitle index")

/-- Outbound effect of `/done`: a plain rejection reply, or the remux job that
gets handed to `embed_multiple_subtitles`.  `.process` is the only action that
spawns the remux subprocess. -/
inductive DoneAction where
  | reply (text : String)
  | process (job : RemuxJob)
deriving DecidableEq

/-- The `RemuxJob` `/done` constructs (bot.py:250-262): output path
`OUTPUT_DIR / f"{user_id}_{video_path.name}"`, and `languages`/`titles`
passed as `None` when the session lists are empty (Python truthiness). -/
def remuxJobOf (user_id : Nat) (session : UserSession) : RemuxJob :=
  { video_file := session.video_path.getD ""
  , subtitle_files := session.subtitle_paths
  , output_file :=
      OUTPUT_DIR ++ "/" ++ Nat.repr user_id ++ "_" ++ pathName (session.video_path.getD "")
  , languages := if session.languages = [] then none else some session.languages
  , titles := if session.titles = [] then none else some session.titles }

/-- `done_command` (bot.py:228-345) as a session transition.  After a remux is
attempted the `finally` block resets the user to a fresh session. -/
def done_command (user_id : Nat) (sess : Option UserSession) :
    Option UserSession × DoneAction :=
  match sess with
  | none => (none, .reply "⚠️ Please send a video first!")
  | some session =>
    if session.state ≠ "waiting_for_subtitles" then
      (some session, .reply "⚠️ Please send a video first!")
    else if session.subtitle_paths = [] then
      (some session, .reply "⚠️ Please send at least one subtitle file!")
    else
      (some UserSession.init, .process (remuxJobOf user_id session))

/-- Session produced by a completed video download (`handle_video`,
bot.py:373-441, with `is_document := false`, and `handle_video_document`,
bot.py:529-587, with `is_document := true`): the old session is replaced by a
fresh one carrying the new video descriptor. -/
def acceptVideo (user_id : Nat) (file_name : String) (file_size : Nat)
    (is_document : Bool) : UserSession :=
  { UserSession.init with
    file_name := some file_name
  , file_size := file_size
  , video_is_document := is_document
  , video_path := some (DOWNLOAD_DIR ++ "/" ++ Nat.repr user_id ++ "_" ++ file_name)
  , state := "waiting_for_subtitles" }

/-- Session left behind when the video download raises: the handler has already
replaced the session and set the name/size/flag fields, but `video_path` and
`state` are never assigned. -/
def failedVideo (file_name : String) (file_size : Nat) (is_document : Bool) :
    UserSession :=
  { UserSession.init with
    file_name := some file_name
  , file_size := file_size
  , video_is_document := is_document }

/-- Subtitle acceptance (bot.py:482-523): the download path embeds the user id
and the current list length, then one element is appended to each parallel
list — language initialized to `"und"`, title to
`document.file_name.rsplit('.', 1)[0]`. -/
def acceptSubtitle (user_id : Nat) (session : UserSession) (file_name : String) :
    UserSession :=
  let subtitle_path := DOWNLOAD_DIR ++ "/" ++ Nat.repr user_id ++ "_sub_"
      ++ Nat.repr session.subtitle_paths.length ++ "_" ++ file_name
  { session with
    subtitle_files := session.subtitle_files ++ [file_name]
  , subtitle_paths := session.subtitle_paths ++ [subtitle_path]
  , languages := session.languages ++ ["und"]
  , titles := session.titles ++ [rsplitStem file_name] }

/-- `handle_document` (bot.py:447-527) as a session transition; `ok` tells
whether the file download succeeded (on failure the handler returns before any
session field is touched).  Rejections (`file_name` falsy, unsupported
extension, wrong stage) leave the stored session untouched. -/
def handle_document_session (user_id : Nat) (sess : Option UserSession)
    (file_name : String) (file_size : Nat) (ok : Bool) : Option UserSession :=
  if file_name = "" then sess
  else
    let file_ext := lowerStr (pathSuffix file_name)
    if video_extensions.contains file_ext then
      if ok then some (acceptVideo user_id file_name file_size true)
      else some (failedVideo file_name file_size true)
    else if ¬ subtitle_extensions.contains file_ext then sess
    else
      match sess with
      | none => none
      | some session =>
        if session.state ≠ "waiting_for_subtitles" then some session
        else if ok then some (acceptSubtitle user_id session file_name)
        else some session

/-- One normalized inbound event for a single user, as dispatched by the
Pyrogram handlers of `bot.py`. -/
inductive BotEvent where
  | start
  | cancel
  | video (file_name : String) (file_size : Nat) (ok : Bool)
  | document (file_name : String) (file_size : Nat) (ok : Bool)
  | langSelect (idx : Nat) (code : String)
  | done
deriving DecidableEq

/-- The session-store effect of one event for one user (`none` = no entry in
`user_sessions`). -/
def stepSession (user_id : Nat) (sess : Option UserSession) :
    BotEvent → Option UserSession
  | .start => some UserSession.init
  | .cancel =>
    match sess with
    | some _ => some UserSession.init
    | none => none
  | .video file_name file_size ok =>
    if ok then some (acceptVideo user_id file_name file_size false)
    else some (failedVideo file_name file_size false)
  | .document file_name file_size ok =>
    handle_document_session user_id sess file_name file_size ok
  | .langSelect idx code => (language_callback sess idx code).1
  | .done => (done_command user_id sess).1

/-- The stored session of a user after a sequence of events, starting from no
entry in `user_sessions`. -/
def replay (user_id : Nat) (events : List BotEvent) : Option UserSession :=
  events.foldl (stepSession user_id) none

/-! ### Spec-side definitions and argument scanning -/

/-- The ordered list of `-map` targets of an argument list: each value that
directly follows a `-map` token. -/
def mapTargets : List String → List String
  | [] => []
  | [_] => []
  | a :: v :: rest =>
    if a = "-map" then v :: mapTargets rest else mapTargets (v :: rest)

/-- Modelled from the spec wording of the codec rule: chosen by container
family of the (lower-cased) video extension, with the per-subtitle ASS test
phrased directly on the subtitle's source extension. -/
def specSubtitleCodecArgs (video_ext : String) (subtitle_files : List String) :
    List String :=
  if [".mp4", ".m4v"].contains video_ext then
    ["-c:s", "mov_text"]
  else if [".mkv", ".webm"].contains video_ext then
    subtitle_files.enum.flatMap (fun p =>
      ["-c:s:" ++ Nat.repr p.1,
       if [".ass", ".ssa"].contains (lowerStr (pathSuffix p.2)) then "ass" else "srt"])
  else
    ["-c:s", "srt"]

/-- Modelled from the spec wording of the metadata rule: per track `i`, the
selected language code (with `und` as the out-of-range/absent default), the
explicit title when provided and the file-name stem otherwise, and the default
disposition exactly on track 0. -/
def specMetadataArgs (subtitle_files : List String)
    (languages titles : Option (List String)) : List String :=
  subtitle_files.enum.flatMap (fun p =>
    ["-metadata:s:s:" ++ Nat.repr p.1,
     "language=" ++ (match languages with
       | some ls => ls.getD p.1 "und"
       | none => "und"),
     "-metadata:s:s:" ++ Nat.repr p.1,
     "title=" ++ (match titles with
       | some ts => if p.1 < ts.length then ts.getD p.1 "" else pathStem p.2
       | none => pathStem p.2),
     "-disposition:s:" ++ Nat.repr p.1,
     if p.1 = 0 then "default" else "0"])

/-- Modelled from the spec: the ffmpeg options that implement "normalize
timestamps so the output starts at zero and negative timestamps are clamped to
zero" (none of which the source emits). -/
def tsNormFlags : List String :=
  ["-avoid_negative_ts", "-copyts", "-start_at_zero", "-muxdelay", "-muxpreload",
   "-output_ts_offset"]

/-! ### Helper lemmas: strings, decimal numerals, argument scanning -/

/-- A string with prefix `a` differs from any string `b` that `a` is not a
prefix of. -/
theorem strAppend_ne (a x b : String) (h : ¬ a.data.isPrefixOf b.data) :
    a ++ x ≠ b := by
  intro he
  apply h
  rw [List.isPrefixOf_iff_prefix, ← he, String.data_append]
  exact List.prefix_append a.data x.data

theorem digitChar_isDigit : ∀ m : Nat, m < 10 → (Nat.digitChar m).isDigit = true := by
  decide

theorem toDigitsCore_digits (fuel : Nat) :
    ∀ (n : Nat) (acc : List Char), (∀ c ∈ acc, c.isDigit = true) →
      ∀ c ∈ Nat.toDigitsCore 10 fuel n acc, c.isDigit = true := by
  induction fuel with
  | zero =>
    intro n acc hacc c hc
    exact hacc c (by simpa [Nat.toDigitsCore] using hc)
  | succ f ih =>
    intro n acc hacc c hc
    have hcons : ∀ d ∈ (Nat.digitChar (n % 10) :: acc), d.isDigit = true := by
      intro d hd
      rcases List.mem_cons.mp hd with hd | hd
      · subst hd; exact digitChar_isDigit _ (Nat.mod_lt _ (by norm_num))
      · exact hacc d hd
    unfold Nat.toDigitsCore at hc
    by_cases h : n / 10 = 0
    · simp only [h, if_true] at hc
      exact hcons c hc
    · simp only [h, if_false] at hc
      exact ih _ _ hcons c hc

theorem toDigitsCore_ne_nil (fuel : Nat) :
    ∀ (n : Nat) (acc : List Char), fuel ≠ 0 ∨ acc ≠ [] →
      Nat.toDigitsCore 10 fuel n acc ≠ [] := by
  induction fuel with
  | zero =>
    intro n acc h
    rcases h with h | h
    · exact absurd rfl h
    · simpa [Nat.toDigitsCore] using h
  | succ f ih =>
    intro n acc _
    unfold Nat.toDigitsCore
    by_cases h : n / 10 = 0
    · simp [h]
    · simpa [h] using ih (n / 10) (Nat.digitChar (n % 10) :: acc) (Or.inr (by simp))

/-- The decimal representation of a natural number starts with a digit. -/
theorem repr_head (n : Nat) :
    ∃ c cs, (Nat.repr n).data = c :: cs ∧ c.isDigit = true := by
  have h1 : ∀ c ∈ Nat.toDigitsCore 10 (n + 1) n [], c.isDigit = true :=
    toDigitsCore_digits (n + 1) n [] (by simp)
  have h2 : Nat.toDigitsCore 10 (n + 1) n [] ≠ [] :=
    toDigitsCore_ne_nil (n + 1) n [] (Or.inl (Nat.succ_ne_zero n))
  cases hl : Nat.toDigitsCore 10 (n + 1) n [] with
  | nil => exact absurd hl h2
  | cons c cs =>
    refine ⟨c, cs, ?_, h1 c (hl ▸ List.mem_cons_self c cs)⟩
    show (Nat.repr n).data = c :: cs
    rw [Nat.repr, Nat.toDigits, hl]
    rfl

/-- A string whose first character is not a digit is no decimal numeral. -/
theorem ne_repr_of_head (f : String)
    (h2 : (f.data.headD '0').isDigit = false) : ∀ n : Nat, f ≠ Nat.repr n := by
  intro n he
  obtain ⟨c, cs, hd, hdig⟩ := repr_head n
  rw [he, hd] at h2
  simp only [List.headD_cons] at h2
  rw [hdig] at h2
  exact absurd h2 (by simp)

theorem mapTargets_cons_ne (a : String) (l : List String) (h : a ≠ "-map") :
    mapTargets (a :: l) = mapTargets l := by
  cases l with
  | nil => simp [mapTargets]
  | cons v rest => simp [mapTargets, h]

theorem mapTargets_cons_map (v : String) (l : List String) :
    mapTargets ("-map" :: v :: l) = v :: mapTargets l := by
  simp [mapTargets]

theorem mapTargets_append_left (xs ys : List String) (h : "-map" ∉ xs) :
    mapTargets (xs ++ ys) = mapTargets ys := by
  induction xs with
  | nil => rfl
  | cons a xs ih =>
    have ha : a ≠ "-map" := fun he => h (he ▸ List.mem_cons_self a xs)
    rw [List.cons_append, mapTargets_cons_ne a _ ha,
      ih (fun hm => h (List.mem_cons_of_mem _ hm))]

theorem mapTargets_eq_nil (xs : List String) (h : "-map" ∉ xs) :
    mapTargets xs = [] := by
  simpa using mapTargets_append_left xs [] h

theorem mapTargets_pairs {α : Type} (f : α → String) (l : List α) (ys : List String) :
    mapTargets ((l.flatMap fun x => ["-map", f x]) ++ ys) = l.map f ++ mapTargets ys := by
  induction l with
  | nil => rfl
  | cons x l ih =>
    have hshape : ((x :: l).flatMap fun y => ["-map", f y]) ++ ys
        = "-map" :: f x :: ((l.flatMap fun y => ["-map", f y]) ++ ys) := by
      simp
    rw [hshape, mapTargets_cons_map, ih, List.map_cons, List.cons_append]

theorem not_mem_subtitleInputArgs (f : String) (subs : List String)
    (h1 : f ≠ "-sub_charenc") (h2 : f ≠ "UTF-8") (h3 : f ≠ "-i") (hs : f ∉ subs) :
    f ∉ subtitleInputArgs subs := by
  intro hmem
  simp only [subtitleInputArgs, List.mem_flatMap] at hmem
  obtain ⟨s, hsm, hmem⟩ := hmem
  simp only [List.mem_cons, List.not_mem_nil, or_false] at hmem
  rcases hmem with h | h | h | h
  · exact h1 h
  · exact h2 h
  · exact h3 h
  · exact hs (by rwa [h])

theorem not_mem_mapSection (f : String) (n : Nat)
    (h1 : f ≠ "-map") (h2 : f ≠ "0:v?") (h3 : f ≠ "0:a?")
    (hrepr : ∀ m : Nat, f ≠ Nat.repr m) :
    f ∉ mapSection n := by
  intro hmem
  simp only [mapSection, List.mem_append, List.mem_cons, List.not_mem_nil, or_false,
    List.mem_flatMap] at hmem
  rcases hmem with (h | h | h | h) | ⟨i, _, hmem⟩
  · exact h1 h
  · exact h2 h
  · exact h1 h
  · exact h3 h
  · rcases hmem with h | h
    · exact h1 h
    · exact hrepr (i + 1) h

theorem not_mem_codecSection (f : String) (ext : String) (subs : List String)
    (h1 : f ≠ "-c:s") (h2 : f ≠ "mov_text") (h3 : f ≠ "ass") (h4 : f ≠ "srt")
    (hp : ¬ "-c:s:".data.isPrefixOf f.data) :
    f ∉ codecSection ext subs := by
  intro hmem
  simp only [codecSection] at hmem
  split_ifs at hmem
  · simp only [List.mem_cons, List.not_mem_nil, or_false] at hmem
    rcases hmem with h | h
    · exact h1 h
    · exact h2 h
  · simp only [List.mem_flatMap] at hmem
    obtain ⟨p, _, hmem⟩ := hmem
    split_ifs at hmem <;>
      simp only [List.mem_cons, List.not_mem_nil, or_false] at hmem
    · rcases hmem with h | h
      · exact strAppend_ne _ _ _ hp h.symm
      · exact h3 h
    · rcases hmem with h | h
      · exact strAppend_ne _ _ _ hp h.symm
      · exact h4 h
  · simp only [List.mem_cons, List.not_mem_nil, or_false] at hmem
    rcases hmem with h | h
    · exact h1 h
    · exact h4 h

theorem not_mem_metadataSection (f : String) (subs : List String)
    (langs titles : Option (List String))
    (hd : f ≠ "default") (h0 : f ≠ "0")
    (hp2 : ¬ "-metadata:s:s:".data.isPrefixOf f.data)
    (hp3 : ¬ "language=".data.isPrefixOf f.data)
    (hp4 : ¬ "title=".data.isPrefixOf f.data)
    (hp5 : ¬ "-disposition:s:".data.isPrefixOf f.data) :
    f ∉ metadataSection subs langs titles := by
  intro hmem
  simp only [metadataSection, List.mem_flatMap] at hmem
  obtain ⟨p, _, hmem⟩ := hmem
  rw [List.mem_append] at hmem
  rcases hmem with hmem | hmem
  · simp only [List.mem_cons, List.not_mem_nil, or_false] at hmem
    rcases hmem with h | h | h | h
    · exact strAppend_ne _ _ _ hp2 h.symm
    · exact strAppend_ne _ _ _ hp3 h.symm
    · exact strAppend_ne _ _ _ hp2 h.symm
    · exact strAppend_ne _ _ _ hp4 h.symm
  · split_ifs at hmem <;>
      simp only [List.mem_cons, List.not_mem_nil, or_false] at hmem
    · rcases hmem with h | h
      · exact strAppend_ne _ _ _ hp5 h.symm
      · exact hd h
    · rcases hmem with h | h
      · exact strAppend_ne _ _ _ hp5 h.symm
      · exact h0 h

/-- A string that is none of the fixed tokens, none of the job's paths, no
decimal numeral and extends none of the constructed-argument prefixes does not
occur in the built command. -/
theorem not_mem_embedCmd (f : String) (job : RemuxJob)
    (hfix : f ∉ (["ffmpeg", "-hide_banner", "-loglevel", "warning", "-nostdin", "-y", "-i",
        "-sub_charenc", "UTF-8", "-map", "0:v?", "0:a?", "-c:v", "copy", "-c:a", "-c:s",
        "mov_text", "ass", "srt", "default", "0", "-movflags", "+faststart",
        "-max_muxing_queue_size", "9999"] : List String))
    (hv : f ≠ job.video_file) (hs : f ∉ job.subtitle_files) (ho : f ≠ job.output_file)
    (hrepr : ∀ m : Nat, f ≠ Nat.repr m)
    (hp1 : ¬ "-c:s:".data.isPrefixOf f.data)
    (hp2 : ¬ "-metadata:s:s:".data.isPrefixOf f.data)
    (hp3 : ¬ "language=".data.isPrefixOf f.data)
    (hp4 : ¬ "title=".data.isPrefixOf f.data)
    (hp5 : ¬ "-disposition:s:".data.isPrefixOf f.data) :
    f ∉ embedCmd job := by
  simp only [List.mem_cons, List.not_mem_nil, or_false, not_or] at hfix
  obtain ⟨hf1, hf2, hf3, hf4, hf5, hf6, hf7, hf8, hf9, hf10, hf11, hf12, hf13, hf14,
    hf15, hf16, hf17, hf18, hf19, hf20, hf21, hf22, hf23, hf24, hf25⟩ := hfix
  intro hmem
  simp only [embedCmd, globalArgs, tailArgs, List.append_assoc, List.cons_append,
    List.nil_append, List.mem_append, List.mem_cons, List.not_mem_nil, or_false] at hmem
  rcases hmem with h | h | h | h | h | h | h | h | h | h | h | h | h | h | h | h | h | h | h | h | h
  · exact hf1 h
  · exact hf2 h
  · exact hf3 h
  · exact hf4 h
  · exact hf5 h
  · exact hf6 h
  · exact hf7 h
  · exact hv h
  · exact not_mem_subtitleInputArgs f _ hf8 hf9 hf7 hs h
  · exact not_mem_mapSection f _ hf10 hf11 hf12 hrepr h
  · exact hf13 h
  · exact hf14 h
  · exact hf15 h
  · exact hf14 h
  · exact not_mem_codecSection f _ _ hf16 hf17 hf18 hf19 hp1 h
  · exact not_mem_metadataSection f _ _ _ hf20 hf21 hp2 hp3 hp4 hp5 h
  · exact hf22 h
  · exact hf23 h
  · exact hf24 h
  · exact hf25 h
  · exact ho h

/-- Every character of a decimal numeral is a digit. -/
theorem repr_digits (n : Nat) : ∀ c ∈ (Nat.repr n).data, c.isDigit = true := by
  have h : (Nat.repr n).data = Nat.toDigitsCore 10 (n + 1) n [] := rfl
  rw [h]
  exact toDigitsCore_digits (n + 1) n [] (by simp)

/-! ### C1: stream selection -/

/-- **C1.** The built command maps all video streams (`0:v?`) and all audio
streams (`0:a?`) of input 0, never maps any subtitle stream of input 0, and
then maps each new subtitle input as input `i+1` in collection order: the
ordered `-map` targets are exactly `0:v?`, `0:a?`, `1`, …, `n`.  The path
side-conditions only rule out a file literally named `-map`. -/
theorem embedCmd_stream_mapping (job : RemuxJob)
    (hv : job.video_file ≠ "-map")
    (hs : "-map" ∉ job.subtitle_files)
    (ho : job.output_file ≠ "-map") :
    mapTargets (embedCmd job) =
      "0:v?" :: "0:a?" ::
        (List.range job.subtitle_files.length).map (fun i => Nat.repr (i + 1))
    ∧ ∀ t ∈ mapTargets (embedCmd job), ¬ "0:s".data.isPrefixOf t.data := by
  have hpre : "-map" ∉ (["ffmpeg"] ++ globalArgs ++ ["-i", job.video_file]
      ++ subtitleInputArgs job.subtitle_files) := by
    intro h
    rcases List.mem_append.mp h with h | h
    · rcases List.mem_append.mp h with h | h
      · rcases List.mem_append.mp h with h | h
        · exact absurd h (by decide)
        · exact absurd h (by decide)
      · rcases List.mem_cons.mp h with h | h
        · exact absurd h (by decide)
        · rcases List.mem_cons.mp h with h | h
          · exact hv h.symm
          · exact absurd h (by simp)
    · exact not_mem_subtitleInputArgs "-map" _ (by decide) (by decide) (by decide) hs h
  have hpost : "-map" ∉ (["-c:v", "copy", "-c:a", "copy"]
      ++ codecSection (lowerStr (pathSuffix job.video_file)) job.subtitle_files
      ++ metadataSection job.subtitle_files job.languages job.titles
      ++ tailArgs ++ [job.output_file]) := by
    intro h
    rcases List.mem_append.mp h with h | h
    · rcases List.mem_append.mp h with h | h
      · rcases List.mem_append.mp h with h | h
        · rcases List.mem_append.mp h with h | h
          · exact absurd h (by decide)
          · exact not_mem_codecSection "-map" _ _ (by decide) (by decide) (by decide)
              (by decide) (by decide) h
        · exact not_mem_metadataSection "-map" _ _ _ (by decide) (by decide) (by decide)
            (by decide) (by decide) (by decide) h
      · exact absurd h (by decide)
    · rcases List.mem_cons.mp h with h | h
      · exact ho h.symm
      · exact absurd h (by simp)
  have hshape : embedCmd job =
      (["ffmpeg"] ++ globalArgs ++ ["-i", job.video_file]
          ++ subtitleInputArgs job.subtitle_files)
        ++ (mapSection job.subtitle_files.length
          ++ (["-c:v", "copy", "-c:a", "copy"]
            ++ codecSection (lowerStr (pathSuffix job.video_file)) job.subtitle_files
            ++ metadataSection job.subtitle_files job.languages job.titles
            ++ tailArgs ++ [job.output_file])) := by
    simp [embedCmd, List.append_assoc]
  have hmain : mapTargets (embedCmd job) =
      "0:v?" :: "0:a?" ::
        (List.range job.subtitle_files.length).map (fun i => Nat.repr (i + 1)) := by
    rw [hshape, mapTargets_append_left _ _ hpre]
    rw [show mapSection job.subtitle_files.length
          ++ (["-c:v", "copy", "-c:a", "copy"]
            ++ codecSection (lowerStr (pathSuffix job.video_file)) job.subtitle_files
            ++ metadataSection job.subtitle_files job.languages job.titles
            ++ tailArgs ++ [job.output_file])
        = "-map" :: "0:v?" :: "-map" :: "0:a?" ::
            (((List.range job.subtitle_files.length).flatMap
                (fun i => ["-map", Nat.repr (i + 1)]))
              ++ (["-c:v", "copy", "-c:a", "copy"]
                ++ codecSection (lowerStr (pathSuffix job.video_file)) job.subtitle_files
                ++ metadataSection job.subtitle_files job.languages job.titles
                ++ tailArgs ++ [job.output_file])) from by simp [mapSection]]
    rw [mapTargets_cons_map, mapTargets_cons_map, mapTargets_pairs,
      mapTargets_eq_nil _ hpost, List.append_nil]
  refine ⟨hmain, ?_⟩
  intro t ht hpre'
  rw [hmain] at ht
  rw [List.isPrefixOf_iff_prefix] at hpre'
  rcases List.mem_cons.mp ht with rfl | ht
  · exact absurd hpre' (by decide)
  rcases List.mem_cons.mp ht with rfl | ht
  · exact absurd hpre' (by decide)
  rw [List.mem_map] at ht
  obtain ⟨i, _, rfl⟩ := ht
  have hcol : ':' ∈ (Nat.repr (i + 1)).data := hpre'.subset (by decide)
  have := repr_digits (i + 1) ':' hcol
  exact absurd this (by decide)

/-- Witness for C1 at a concrete two-subtitle job. -/
theorem embedCmd_stream_mapping_witness :
    mapTargets (embedCmd
      { video_file := "/v/m.mkv", subtitle_files := ["/s/a.ass", "/s/b.srt"],
        output_file := "/o/out.mkv", languages := some ["eng", "und"],
        titles := some ["A", "b"] }) = ["0:v?", "0:a?", "1", "2"] := by
  have h := (embedCmd_stream_mapping
      { video_file := "/v/m.mkv", subtitle_files := ["/s/a.ass", "/s/b.srt"],
        output_file := "/o/out.mkv", languages := some ["eng", "und"],
        titles := some ["A", "b"] } (by decide) (by decide) (by decide)).1
  rw [h]
  decide

/-! ### C2: subtitle codec selection -/

theorem get_subtitle_format_ass_iff (s : String) :
    get_subtitle_format s = "ass" ↔
      [".ass", ".ssa"].contains (lowerStr (pathSuffix s)) = true := by
  simp only [get_subtitle_format]
  split_ifs with h1 h2 h3 h4 h5
  · rw [h1]; decide
  · rw [h2]; decide
  · rw [h3]; decide
  · rw [h4]; decide
  · rw [h5]; decide
  · constructor
    · intro h; exact absurd h (by decide)
    · intro h
      have h' : lowerStr (pathSuffix s) ∈ [".ass", ".ssa"] := List.elem_iff.mp h
      rcases List.mem_cons.mp h' with h' | h'
      · exact absurd h' h2
      rcases List.mem_cons.mp h' with h' | h'
      · exact absurd h' h3
      · exact absurd h' (by simp)

/-- **C2.** The subtitle codec arguments of the built command are a function of
the video extension alone: `mov_text` for every track on `.mp4`/`.m4v`, a
per-track choice of `ass` (for `.ass`/`.ssa` sources) versus `srt` on
`.mkv`/`.webm`, and `srt` for every track otherwise — the codec section the
built command embeds coincides with the spec-worded selection rule. -/
theorem embedCmd_subtitle_codecs :
    (∀ job : RemuxJob,
      List.IsInfix (codecSection (lowerStr (pathSuffix job.video_file)) job.subtitle_files)
        (embedCmd job))
    ∧ ∀ (ext : String) (subs : List String),
        codecSection ext subs = specSubtitleCodecArgs ext subs := by
  constructor
  · intro job
    refine ⟨["ffmpeg"] ++ globalArgs ++ ["-i", job.video_file]
        ++ subtitleInputArgs job.subtitle_files
        ++ mapSection job.subtitle_files.length
        ++ ["-c:v", "copy", "-c:a", "copy"],
      metadataSection job.subtitle_files job.languages job.titles
        ++ tailArgs ++ [job.output_file], ?_⟩
    simp [embedCmd, List.append_assoc]
  · intro ext subs
    simp only [codecSection, specSubtitleCodecArgs]
    split_ifs with h1 h2
    · rfl
    · congr 1
      funext p
      by_cases hass : get_subtitle_format p.2 = "ass"
      · rw [if_pos hass, if_pos ((get_subtitle_format_ass_iff p.2).mp hass)]
      · rw [if_neg hass, if_neg (fun hc => hass ((get_subtitle_format_ass_iff p.2).mpr hc))]
    · rfl

/-! ### C3: per-track metadata -/

theorem langFor_eq (langs : Option (List String)) (i : Nat) :
    langFor langs i = match langs with
      | some ls => ls.getD i "und"
      | none => "und" := by
  cases langs with
  | none => rfl
  | some ls =>
    simp only [langFor]
    split_ifs with h
    · rfl
    · push_neg at h
      by_cases hnil : ls = []
      · subst hnil
        simp [List.getD_eq_getElem?_getD]
      · rw [List.getD_eq_getElem?_getD, List.getElem?_eq_none (h hnil)]
        rfl

theorem titleFor_eq (titles : Option (List String)) (s : String) (i : Nat) :
    titleFor titles s i = match titles with
      | some ts => if i < ts.length then ts.getD i "" else pathStem s
      | none => pathStem s := by
  cases titles with
  | none => rfl
  | some ts =>
    simp only [titleFor]
    split_ifs with h h2 h2
    · rfl
    · exact absurd h.2 h2
    · push_neg at h
      by_cases hnil : ts = []
      · subst hnil; simp at h2
      · exact absurd h2 (by simpa using h hnil)
    · rfl

theorem metadataSection_eq_spec (subs : List String)
    (langs titles : Option (List String)) :
    metadataSection subs langs titles = specMetadataArgs subs langs titles := by
  simp only [metadataSection, specMetadataArgs]
  congr 1
  funext p
  rw [langFor_eq, titleFor_eq]
  by_cases h0 : p.1 = 0 <;> simp [h0]

/-- Appending one `"und"` entry preserves "index `i` reads `und`". -/
theorem getD_append_und (l : List String) (i : Nat) (h : l.getD i "und" = "und") :
    (l ++ ["und"]).getD i "und" = "und" := by
  rw [List.getD_eq_getElem?_getD] at h ⊢
  rcases Nat.lt_or_ge i l.length with hi | hi
  · rw [List.getElem?_append_left hi]
    exact h
  · rw [List.getElem?_append_right hi]
    by_cases he : i - l.length = 0
    · rw [he]; rfl
    · rw [List.getElem?_eq_none (by simpa using Nat.one_le_iff_ne_zero.mpr he)]
      rfl

/-- One step that is no language selection for index `i` preserves "index `i`
reads `und`". -/
theorem langUntouched_step (user_id : Nat) (sess : Option UserSession) (e : BotEvent)
    (i : Nat) (hnot : ∀ code, e ≠ BotEvent.langSelect i code)
    (hacc : ∀ s, sess = some s → s.languages.getD i "und" = "und") :
    ∀ s, stepSession user_id sess e = some s → s.languages.getD i "und" = "und" := by
  intro s hstep
  cases e with
  | start =>
    simp only [stepSession, Option.some.injEq] at hstep
    subst hstep
    simp [UserSession.init, List.getD_eq_getElem?_getD]
  | cancel =>
    cases sess with
    | none => simp [stepSession] at hstep
    | some session =>
      simp only [stepSession, Option.some.injEq] at hstep
      subst hstep
      simp [UserSession.init, List.getD_eq_getElem?_getD]
  | video fn fs ok =>
    simp only [stepSession] at hstep
    by_cases hok : ok = true <;>
      simp only [hok, if_true, if_false, Bool.false_eq_true, Option.some.injEq] at hstep <;>
      subst hstep <;>
      simp [acceptVideo, failedVideo, UserSession.init, List.getD_eq_getElem?_getD]
  | document fn fs ok =>
    simp only [stepSession, handle_document_session] at hstep
    by_cases hemp : fn = ""
    · rw [if_pos hemp] at hstep
      exact hacc s hstep
    rw [if_neg hemp] at hstep
    by_cases hvid : video_extensions.contains (lowerStr (pathSuffix fn)) = true
    · rw [if_pos hvid] at hstep
      by_cases hok : ok = true <;>
        simp only [hok, if_true, if_false, Bool.false_eq_true, Option.some.injEq] at hstep <;>
        subst hstep <;>
        simp [acceptVideo, failedVideo, UserSession.init, List.getD_eq_getElem?_getD]
    rw [if_neg hvid] at hstep
    by_cases hsub : subtitle_extensions.contains (lowerStr (pathSuffix fn)) = true
    · rw [if_neg (by simpa using hsub)] at hstep
      cases sess with
      | none => exact Option.noConfusion hstep
      | some session =>
        dsimp only at hstep
        by_cases hst : session.state ≠ "waiting_for_subtitles"
        · rw [if_pos hst] at hstep
          cases hstep
          exact hacc _ rfl
        rw [if_neg hst] at hstep
        by_cases hok : ok = true
        · rw [if_pos hok] at hstep
          cases hstep
          simp only [acceptSubtitle]
          exact getD_append_und _ _ (hacc session rfl)
        · rw [if_neg hok] at hstep
          cases hstep
          exact hacc _ rfl
    · rw [if_pos (by simpa using hsub)] at hstep
      exact hacc s hstep
  | langSelect j code =>
    have hij : j ≠ i := fun he => hnot code (by rw [he])
    cases sess with
    | none => simp [stepSession, language_callback] at hstep
    | some session =>
      simp only [stepSession, language_callback] at hstep
      split_ifs at hstep <;> simp only [Option.some.injEq] at hstep <;> subst hstep
      · simp only
        rw [List.getD_eq_getElem?_getD, List.getElem?_set_ne hij,
          ← List.getD_eq_getElem?_getD]
        exact hacc session rfl
      · exact hacc session rfl
  | done =>
    cases sess with
    | none => simp [stepSession, done_command] at hstep
    | some session =>
      simp only [stepSession, done_command] at hstep
      split_ifs at hstep <;> simp only [Option.some.injEq] at hstep <;> subst hstep
      · exact hacc session rfl
      · exact hacc session rfl
      · simp [UserSession.init, List.getD_eq_getElem?_getD]

theorem langUntouched_replay (user_id : Nat) (es : List BotEvent) (i : Nat) :
    ∀ sess : Option UserSession,
      (∀ code, BotEvent.langSelect i code ∉ es) →
      (∀ s, sess = some s → s.languages.getD i "und" = "und") →
      ∀ s, es.foldl (stepSession user_id) sess = some s →
        s.languages.getD i "und" = "und" := by
  induction es with
  | nil =>
    intro sess _ hacc s h
    exact hacc s h
  | cons e es ih =>
    intro sess hnot hacc s h
    rw [List.foldl_cons] at h
    refine ih _ (fun code hc => hnot code (List.mem_cons_of_mem _ hc)) ?_ s h
    exact langUntouched_step user_id sess e i
      (fun code he => hnot code (by rw [he]; exact List.mem_cons_self _ _)) hacc

/-- **C3.** The built command embeds the metadata section; that section agrees
with the spec-worded rule (selected language or `und`, explicit title or
file-name stem, default disposition exactly on track 0); and a subtitle index
whose language was never selected still reads `und` in the session that
finalize hands to the builder. -/
theorem embedCmd_track_metadata :
    ((∀ job : RemuxJob,
        List.IsInfix (metadataSection job.subtitle_files job.languages job.titles)
          (embedCmd job))
      ∧ ∀ (subs : List String) (langs titles : Option (List String)),
          metadataSection subs langs titles = specMetadataArgs subs langs titles)
    ∧ ∀ (user_id : Nat) (es : List BotEvent) (i : Nat),
        (∀ code, BotEvent.langSelect i code ∉ es) →
        ∀ s, replay user_id es = some s → s.languages.getD i "und" = "und" := by
  refine ⟨⟨?_, ?_⟩, ?_⟩
  · intro job
    refine ⟨["ffmpeg"] ++ globalArgs ++ ["-i", job.video_file]
        ++ subtitleInputArgs job.subtitle_files
        ++ mapSection job.subtitle_files.length
        ++ ["-c:v", "copy", "-c:a", "copy"]
        ++ codecSection (lowerStr (pathSuffix job.video_file)) job.subtitle_files,
      tailArgs ++ [job.output_file], ?_⟩
    simp [embedCmd, List.append_assoc]
  · exact metadataSection_eq_spec
  · intro user_id es i hnot s hs
    exact langUntouched_replay user_id es i none hnot (fun s h => by cases h) s hs

/-- Witness for C3 at a concrete replayed session whose only subtitle was never
tagged. -/
theorem embedCmd_track_metadata_witness :
    (UserSession.mk (some "downloads/7_m.mkv") false ["s.srt"]
        ["downloads/7_sub_0_s.srt"] ["und"] ["s"] "waiting_for_subtitles"
        (some "m.mkv") 9).languages.getD 0 "und" = "und" :=
  embedCmd_track_metadata.2 7
    [BotEvent.video "m.mkv" 9 true, BotEvent.document "s.srt" 4 true] 0
    (fun code => by simp)
    (UserSession.mk (some "downloads/7_m.mkv") false ["s.srt"]
        ["downloads/7_sub_0_s.srt"] ["und"] ["s"] "waiting_for_subtitles"
        (some "m.mkv") 9)
    (by decide)

/-! ### C4 and C5: executor result classification -/

/-- **C5.** The executor reports success exactly when the process exited 0 and
the declared output file exists; exit 0 without an output file is a failure. -/
theorem runPhaseResult_success_iff (outcome : ProcOutcome) (outputExists : Bool) :
    runPhaseResult outcome outputExists = true ↔
      outcome = ProcOutcome.exited 0 ∧ outputExists = true := by
  cases outcome with
  | exited rc =>
    by_cases h : rc = 0 <;> cases outputExists <;> simp [runPhaseResult, h]
  | timeout => simp [runPhaseResult]
  | raised => simp [runPhaseResult]

/-- **C4 counterexample.** A timed-out run and a non-zero exit produce the very
same result value (`False`), so the two failure kinds are not distinguishable
by the caller. -/
theorem runPhaseResult_timeout_counterexample :
    runPhaseResult ProcOutcome.timeout true = runPhaseResult (ProcOutcome.exited 1) true
    ∧ runPhaseResult ProcOutcome.timeout true = false := by
  decide

/-- **C4 (amended).** On timeout the executor returns the same generic failure
value `False` that a non-zero exit produces; the two cases are told apart only
in log output. -/
theorem runPhaseResult_timeout_indistinct (returncode : Int) (outputExists : Bool)
    (h : returncode ≠ 0) :
    runPhaseResult ProcOutcome.timeout outputExists = false
    ∧ runPhaseResult (ProcOutcome.exited returncode) outputExists = false := by
  exact ⟨rfl, by simp [runPhaseResult, h]⟩

/-- Witness for the amended C4. -/
theorem runPhaseResult_timeout_indistinct_witness :
    runPhaseResult ProcOutcome.timeout true = false
    ∧ runPhaseResult (ProcOutcome.exited 2) true = false :=
  runPhaseResult_timeout_indistinct 2 true (by decide)

/-! ### C6: encoding and timing options -/

/-- **C6 counterexample.** At a concrete job, none of the options that would
normalize timestamps (start at zero, clamp negatives) occurs anywhere in the
built command, refuting the claim that the command includes them. -/
theorem embedCmd_no_ts_normalization_counterexample :
    tsNormFlags.all (fun f => !((embedCmd
      { video_file := "/v/m.mkv", subtitle_files := ["/s/a.srt"],
        output_file := "/o/out.mkv", languages := none,
        titles := none }).contains f)) = true := by
  decide

/-- **C6 (amended).** The built command forces UTF-8 subtitle decoding for each
subtitle input and stream-copies video and audio (timing passed through, audio
not resampled), but contains no timestamp-normalization option at all.  The
side-conditions only rule out input files literally named like one of those
flags. -/
theorem embedCmd_encoding_and_timing (job : RemuxJob)
    (hv : job.video_file ∉ tsNormFlags)
    (hs : ∀ s ∈ job.subtitle_files, s ∉ tsNormFlags)
    (ho : job.output_file ∉ tsNormFlags) :
    (∀ s ∈ job.subtitle_files,
      List.IsInfix ["-sub_charenc", "UTF-8", "-i", s] (embedCmd job))
    ∧ List.IsInfix ["-c:v", "copy", "-c:a", "copy"] (embedCmd job)
    ∧ ∀ f ∈ tsNormFlags, f ∉ embedCmd job := by
  refine ⟨?_, ?_, ?_⟩
  · intro s hmem
    obtain ⟨l1, l2, hsplit⟩ := List.append_of_mem hmem
    refine ⟨["ffmpeg"] ++ globalArgs ++ ["-i", job.video_file] ++ subtitleInputArgs l1,
      subtitleInputArgs l2 ++ mapSection job.subtitle_files.length
        ++ (["-c:v", "copy", "-c:a", "copy"]
          ++ codecSection (lowerStr (pathSuffix job.video_file)) job.subtitle_files
          ++ metadataSection job.subtitle_files job.languages job.titles
          ++ tailArgs ++ [job.output_file]), ?_⟩
    simp only [embedCmd]
    rw [hsplit]
    simp [subtitleInputArgs, List.append_assoc]
  · refine ⟨["ffmpeg"] ++ globalArgs ++ ["-i", job.video_file]
        ++ subtitleInputArgs job.subtitle_files
        ++ mapSection job.subtitle_files.length,
      codecSection (lowerStr (pathSuffix job.video_file)) job.subtitle_files
        ++ metadataSection job.subtitle_files job.languages job.titles
        ++ tailArgs ++ [job.output_file], ?_⟩
    simp [embedCmd, List.append_assoc]
  · intro f hf
    simp only [tsNormFlags, List.mem_cons, List.not_mem_nil, or_false] at hf
    rcases hf with rfl | rfl | rfl | rfl | rfl | rfl <;>
      exact not_mem_embedCmd _ job (by decide)
        (fun he => hv (by rw [← he]; decide))
        (fun hmem => hs _ hmem (by decide))
        (fun he => ho (by rw [← he]; decide))
        (ne_repr_of_head _ (by decide))
        (by decide) (by decide) (by decide) (by decide) (by decide)

/-- Witness for the amended C6 at a concrete one-subtitle job. -/
theorem embedCmd_encoding_and_timing_witness :
    List.IsInfix ["-sub_charenc", "UTF-8", "-i", "/s/a.srt"]
      (embedCmd
        { video_file := "/v/m.mkv", subtitle_files := ["/s/a.srt"],
          output_file := "/o/out.mkv", languages := none, titles := none })
    ∧ "-avoid_negative_ts" ∉ embedCmd
        { video_file := "/v/m.mkv", subtitle_files := ["/s/a.srt"],
          output_file := "/o/out.mkv", languages := none, titles := none } := by
  have h := embedCmd_encoding_and_timing
    { video_file := "/v/m.mkv", subtitle_files := ["/s/a.srt"],
      output_file := "/o/out.mkv", languages := none, titles := none }
    (by decide) (by decide) (by decide)
  exact ⟨h.1 "/s/a.srt" (by decide), h.2.2 "-avoid_negative_ts" (by decide)⟩

/-! ### C7: container-specific muxing options -/

/-- **C7 counterexample.** For an `.avi` container — neither mp4-family nor
mkv-family — the built command still contains the fast-start option and the
raised muxing-queue bound, refuting the "when and only when" claim. -/
theorem embedCmd_container_options_counterexample :
    "-movflags" ∈ embedCmd
      { video_file := "/v/m.avi", subtitle_files := ["/s/a.srt"],
        output_file := "/o/out.avi", languages := none, titles := none }
    ∧ "+faststart" ∈ embedCmd
      { video_file := "/v/m.avi", subtitle_files := ["/s/a.srt"],
        output_file := "/o/out.avi", languages := none, titles := none }
    ∧ "-max_muxing_queue_size" ∈ embedCmd
      { video_file := "/v/m.avi", subtitle_files := ["/s/a.srt"],
        output_file := "/o/out.avi", languages := none, titles := none }
    ∧ lowerStr (pathSuffix "/v/m.avi") = ".avi"
    ∧ [".mp4", ".m4v", ".mkv", ".webm"].contains ".avi" = false := by
  refine ⟨by decide, by decide, by decide, by decide, by decide⟩

/-- **C7 (amended).** The fast-start option and the raised muxing-queue bound
are emitted unconditionally, for every container kind. -/
theorem embedCmd_container_options (job : RemuxJob) :
    List.IsInfix ["-movflags", "+faststart"] (embedCmd job)
    ∧ List.IsInfix ["-max_muxing_queue_size", "9999"] (embedCmd job) := by
  constructor
  · refine ⟨["ffmpeg"] ++ globalArgs ++ ["-i", job.video_file]
        ++ subtitleInputArgs job.subtitle_files
        ++ mapSection job.subtitle_files.length
        ++ (["-c:v", "copy", "-c:a", "copy"]
          ++ codecSection (lowerStr (pathSuffix job.video_file)) job.subtitle_files
          ++ metadataSection job.subtitle_files job.languages job.titles),
      ["-max_muxing_queue_size", "9999"] ++ [job.output_file], ?_⟩
    simp [embedCmd, tailArgs, List.append_assoc]
  · refine ⟨["ffmpeg"] ++ globalArgs ++ ["-i", job.video_file]
        ++ subtitleInputArgs job.subtitle_files
        ++ mapSection job.subtitle_files.length
        ++ (["-c:v", "copy", "-c:a", "copy"]
          ++ codecSection (lowerStr (pathSuffix job.video_file)) job.subtitle_files
          ++ metadataSection job.subtitle_files job.languages job.titles
          ++ ["-movflags", "+faststart"]),
      [job.output_file], ?_⟩
    simp [embedCmd, tailArgs, List.append_assoc]

/-! ### C8: finalize with no subtitles -/

/-- **C8.** In the collecting state with an empty subtitle list, `/done` is
answered with a user message, the stored session is returned completely
unchanged (video descriptor included), and the emitted action is a plain
reply — `DoneAction.process`, the only action that spawns a remux, is not
produced. -/
theorem done_rejects_empty_subtitles (user_id : Nat) (session : UserSession)
    (hstate : session.state = "waiting_for_subtitles")
    (hempty : session.subtitle_paths = []) :
    done_command user_id (some session) =
      (some session, DoneAction.reply "⚠️ Please send at least one subtitle file!") := by
  simp only [done_command]
  rw [if_neg (by simp [hstate]), if_pos hempty]

/-- Witness for C8 at a concrete collecting-state session. -/
theorem done_rejects_empty_subtitles_witness :
    done_command 5 (some
        { UserSession.init with
          state := "waiting_for_subtitles"
        , video_path := some "downloads/5_v.mp4"
        , file_name := some "v.mp4" }) =
      (some
        { UserSession.init with
          state := "waiting_for_subtitles"
        , video_path := some "downloads/5_v.mp4"
        , file_name := some "v.mp4" },
       DoneAction.reply "⚠️ Please send at least one subtitle file!") :=
  done_rejects_empty_subtitles 5 _ rfl rfl

/-! ### C9: out-of-range language selection -/

/-- **C9.** A language-selection event whose index is at least the current
subtitle count (the parallel-lists hypothesis ties the checked `languages`
length to the subtitle count) is answered with the explicit invalid-index
alert and returns the session unchanged, mutating no descriptor; with no
session at all it is answered with the explicit session-expired alert.  In
both cases no list element is accessed. -/
theorem langSelect_out_of_range_rejected (session : UserSession) (idx : Nat)
    (code : String)
    (hpar : session.languages.length = session.subtitle_paths.length)
    (hidx : session.subtitle_paths.length ≤ idx) :
    language_callback (some session) idx code =
      (some session, CallbackAction.alert "❌ Invalid subtitle index")
    ∧ language_callback none idx code =
      (none, CallbackAction.alert "❌ Session expired. Please start again.") := by
  constructor
  · simp only [language_callback]
    rw [if_neg (by omega)]
  · rfl

/-- Witness for C9 at a concrete one-subtitle session and index 1. -/
theorem langSelect_out_of_range_rejected_witness :
    language_callback (some
        { UserSession.init with
          state := "waiting_for_subtitles"
        , video_path := some "downloads/5_v.mp4"
        , file_name := some "v.mp4"
        , subtitle_files := ["a.srt"]
        , subtitle_paths := ["downloads/5_sub_0_a.srt"]
        , languages := ["und"]
        , titles := ["a"] }) 1 "eng" =
      (some
        { UserSession.init with
          state := "waiting_for_subtitles"
        , video_path := some "downloads/5_v.mp4"
        , file_name := some "v.mp4"
        , subtitle_files := ["a.srt"]
        , subtitle_paths := ["downloads/5_sub_0_a.srt"]
        , languages := ["und"]
        , titles := ["a"] }, CallbackAction.alert "❌ Invalid subtitle index")
    ∧ language_callback none 1 "eng" =
      (none, CallbackAction.alert "❌ Session expired. Please start again.") :=
  langSelect_out_of_range_rejected _ 1 "eng" (by decide) (by decide)

/-! ### C10: parallel-lists invariant -/

/-- One event preserves equality of the three per-subtitle list lengths. -/
theorem step_preserves_parallel (user_id : Nat) (sess : Option UserSession)
    (e : BotEvent)
    (hacc : ∀ s, sess = some s →
      s.languages.length = s.subtitle_paths.length
      ∧ s.titles.length = s.subtitle_paths.length) :
    ∀ s, stepSession user_id sess e = some s →
      s.languages.length = s.subtitle_paths.length
      ∧ s.titles.length = s.subtitle_paths.length := by
  intro s hstep
  cases e with
  | start =>
    simp only [stepSession, Option.some.injEq] at hstep
    subst hstep
    simp [UserSession.init]
  | cancel =>
    cases sess with
    | none => simp [stepSession] at hstep
    | some session =>
      simp only [stepSession, Option.some.injEq] at hstep
      subst hstep
      simp [UserSession.init]
  | video fn fs ok =>
    simp only [stepSession] at hstep
    by_cases hok : ok = true <;>
      simp only [hok, if_true, if_false, Bool.false_eq_true, Option.some.injEq] at hstep <;>
      subst hstep <;>
      simp [acceptVideo, failedVideo, UserSession.init]
  | document fn fs ok =>
    simp only [stepSession, handle_document_session] at hstep
    by_cases hemp : fn = ""
    · rw [if_pos hemp] at hstep
      exact hacc s hstep
    rw [if_neg hemp] at hstep
    by_cases hvid : video_extensions.contains (lowerStr (pathSuffix fn)) = true
    · rw [if_pos hvid] at hstep
      by_cases hok : ok = true <;>
        simp only [hok, if_true, if_false, Bool.false_eq_true, Option.some.injEq] at hstep <;>
        subst hstep <;>
        simp [acceptVideo, failedVideo, UserSession.init]
    rw [if_neg hvid] at hstep
    by_cases hsub : subtitle_extensions.contains (lowerStr (pathSuffix fn)) = true
    · rw [if_neg (by simpa using hsub)] at hstep
      cases sess with
      | none => exact Option.noConfusion hstep
      | some session =>
        dsimp only at hstep
        by_cases hst : session.state ≠ "waiting_for_subtitles"
        · rw [if_pos hst] at hstep
          cases hstep
          exact hacc _ rfl
        rw [if_neg hst] at hstep
        by_cases hok : ok = true
        · rw [if_pos hok] at hstep
          cases hstep
          have h := hacc session rfl
          simp only [acceptSubtitle, List.length_append, List.length_cons,
            List.length_nil]
          omega
        · rw [if_neg hok] at hstep
          cases hstep
          exact hacc _ rfl
    · rw [if_pos (by simpa using hsub)] at hstep
      exact hacc s hstep
  | langSelect j code =>
    cases sess with
    | none => simp [stepSession, language_callback] at hstep
    | some session =>
      simp only [stepSession, language_callback] at hstep
      split_ifs at hstep <;> simp only [Option.some.injEq] at hstep <;> subst hstep
      · have h := hacc session rfl
        simpa [List.length_set] using h
      · exact hacc _ rfl
  | done =>
    cases sess with
    | none => simp [stepSession, done_command] at hstep
    | some session =>
      simp only [stepSession, done_command] at hstep
      split_ifs at hstep <;> simp only [Option.some.injEq] at hstep <;> subst hstep
      · exact hacc _ rfl
      · exact hacc _ rfl
      · simp [UserSession.init]

/-- **C10.** In every reachable session the `subtitle_paths`, `languages` and
`titles` sequences have equal length (so every subtitle index below the count
has a language and a title defined): uploads append to all three lists in
lock-step — `und` / file-name-stem defaults included — and language selection
only overwrites an existing `languages` element, as the step function from the
source spells out. -/
theorem replay_parallel_lists (user_id : Nat) (es : List BotEvent)
    (s : UserSession) (hs : replay user_id es = some s) :
    s.languages.length = s.subtitle_paths.length
    ∧ s.titles.length = s.subtitle_paths.length := by
  suffices h : ∀ sess : Option UserSession,
      (∀ t, sess = some t →
        t.languages.length = t.subtitle_paths.length
        ∧ t.titles.length = t.subtitle_paths.length) →
      ∀ t, es.foldl (stepSession user_id) sess = some t →
        t.languages.length = t.subtitle_paths.length
        ∧ t.titles.length = t.subtitle_paths.length by
    exact h none (fun t ht => by cases ht) s hs
  clear hs s
  induction es with
  | nil =>
    intro sess hacc t ht
    exact hacc t ht
  | cons e es ih =>
    intro sess hacc t ht
    rw [List.foldl_cons] at ht
    exact ih _ (step_preserves_parallel user_id sess e hacc) t ht

/-- Witness for C10 at a concrete replayed session. -/
theorem replay_parallel_lists_witness :
    (UserSession.mk (some "downloads/3_a.mp4") false ["s.srt"]
        ["downloads/3_sub_0_s.srt"] ["und"] ["s"] "waiting_for_subtitles"
        (some "a.mp4") 5).languages.length =
      (UserSession.mk (some "downloads/3_a.mp4") false ["s.srt"]
        ["downloads/3_sub_0_s.srt"] ["und"] ["s"] "waiting_for_subtitles"
        (some "a.mp4") 5).subtitle_paths.length
    ∧ (UserSession.mk (some "downloads/3_a.mp4") false ["s.srt"]
        ["downloads/3_sub_0_s.srt"] ["und"] ["s"] "waiting_for_subtitles"
        (some "a.mp4") 5).titles.length =
      (UserSession.mk (some "downloads/3_a.mp4") false ["s.srt"]
        ["downloads/3_sub_0_s.srt"] ["und"] ["s"] "waiting_for_subtitles"
        (some "a.mp4") 5).subtitle_paths.length :=
  replay_parallel_lists 3
    [BotEvent.video "a.mp4" 5 true, BotEvent.document "s.srt" 1 true] _ (by decide)

end SubtitleBot
